import Mathlib

/-!
Shallow embedding of the per-product review aggregation pipeline of
src/app.py (the cached_inference / analyze_product core), together with
the functools.lru_cache memoisation layer that wraps cached_inference.

Conventions of the embedding:
* pandas rows become a Lean structure Review; the Review Store (the df
  DataFrame) is a List Review; df[df.parent_asin == asin] is List.filter.
* Python floats are modelled as rationals.
* The zero-shot classifier (an external capability, transformers
  pipeline) is a parameter: a function from the batch of cleaned texts
  to one labels/scores record per text.  A fallible classifier returns
  Except Unit; a raised exception is Except.error.
* Python dicts keyed by strings are association lists in insertion
  order; dict[k] = dict.get(k, 0) + 1 updates in place or appends.
  The sentiment_counts dict has the three fixed keys Positive,
  Negative, Neutral created up front, so it is modelled as a record
  together with its insertion-ordered dict view.
* Python max over an iterable with a key function returns the first
  element attaining the maximum (it replaces the current best only on
  strictly greater); max of an empty sequence raises ValueError, which
  the embedding surfaces as Option.none / Except.error.
-/

/-- src/app.py line 13: MAX_REVIEWS_TO_ANALYZE = 50. -/
def MAX_REVIEWS_TO_ANALYZE : Nat := 50

/-- src/app.py lines 15-18: the fixed, ordered list of six candidate labels. -/
def LABELS : List String :=
  ["Quality & Effectiveness", "Scent & Texture", "Price & Value",
   "Packaging & Shipping", "Safety & Authenticity", "Service"]

/-- One row of the Review Store (a review joined with product metadata). -/
structure Review where
  text : String
  rating : Int
  helpful_vote : Int
  timestamp : Int
  parent_asin : String
  product_title : String
  product_image : Option String
  average_rating : ℚ
  rating_number : Int
deriving DecidableEq

/-- Per-text output of the zero-shot classifier: parallel lists of labels
and scores. -/
structure ClassifierResult where
  labels : List String
  scores : List ℚ
deriving DecidableEq

/-- src/app.py lines 41-45: the ReviewDetail pydantic model. -/
structure ReviewDetail where
  text : String
  rating : Int
  topic : String
  topic_score : ℚ
deriving DecidableEq

/-- The sentiment_counts dict of src/app.py line 104, which has exactly the
three fixed keys Positive, Negative, Neutral. -/
structure SentimentCounts where
  positive : Nat
  negative : Nat
  neutral : Nat
deriving DecidableEq

/-- The insertion-ordered dict view of the sentiment_counts record, with the
keys in the order they are created on src/app.py line 104. -/
def sentimentToDict (s : SentimentCounts) : List (String × Nat) :=
  [("Positive", s.positive), ("Negative", s.negative), ("Neutral", s.neutral)]

/-- The topic_counts dict of src/app.py line 103: dynamic string keys in
insertion order. -/
abbrev TopicCounts := List (String × Nat)

/-- src/app.py lines 47-57: the ReviewAnalysis response model (the
AnalysisResult of the spec). -/
structure ReviewAnalysis where
  total_reviews_local : Nat
  analyzed_count : Nat
  product_title : String
  product_image : Option String
  average_rating : ℚ
  rating_number : Int
  top_topics : List (String × ℚ)
  sentiment_breakdown : List (String × Nat)
  reviews : List ReviewDetail
  ai_summary : String
deriving DecidableEq

/-- The whitespace class of Python regular expressions (ASCII part), used by
the two re.sub calls in clean_text. -/
def isPySpace (c : Char) : Bool :=
  c = ' ' || c = '\t' || c = '\n' || c = '\r' || c.toNat = 11 || c.toNat = 12

/-- After the characters b r of a literal "<br" tag, consume whitespace, an
optional slash, and the closing angle bracket: the tail of one match of the
regular expression of src/app.py line 61.  Returns the rest of the input on
a match. -/
def eatBrTail : List Char → Option (List Char)
  | [] => none
  | c :: rest =>
    if isPySpace c then eatBrTail rest
    else if c = '/' then
      match rest with
      | '>' :: r => some r
      | _ => none
    else if c = '>' then some rest
    else none

theorem eatBrTail_length : ∀ (l r : List Char), eatBrTail l = some r → r.length ≤ l.length := by
  intro l
  induction l with
  | nil => intro r h; simp [eatBrTail] at h
  | cons c rest ih =>
    intro r h
    simp only [eatBrTail] at h
    split at h
    · exact Nat.le_succ_of_le (ih r h)
    · split at h
      · split at h
        · cases h
          simp_all [List.length]
          omega
        · simp at h
      · split at h
        · cases h
          simp
        · simp at h

/-- src/app.py line 61: re.sub replacing every occurrence of a literal
line-break tag by a single space, scanning left to right. -/
def stripBr : List Char → List Char
  | [] => []
  | '<' :: 'b' :: 'r' :: rest =>
    match h : eatBrTail rest with
    | some rest2 => ' ' :: stripBr rest2
    | none => '<' :: stripBr ('b' :: 'r' :: rest)
  | c :: rest => c :: stripBr rest
termination_by l => l.length
decreasing_by
  · have := eatBrTail_length rest rest2 h
    simp only [List.length_cons]
    omega
  · simp only [List.length_cons]
    omega
  · simp

/-- src/app.py line 62 (first part): re.sub collapsing every maximal run of
whitespace to a single space.  The Boolean flag records whether the previous
character was part of a whitespace run. -/
def collapseWsAux : Bool → List Char → List Char
  | _, [] => []
  | prevWs, c :: rest =>
    if isPySpace c then
      if prevWs then collapseWsAux true rest
      else ' ' :: collapseWsAux true rest
    else c :: collapseWsAux false rest

/-- Python str.strip: drop leading and trailing whitespace. -/
def pyStrip (l : List Char) : List Char :=
  ((l.dropWhile isPySpace).reverse.dropWhile isPySpace).reverse

/-- src/app.py lines 60-63: clean_text. -/
def clean_text (s : String) : String :=
  ⟨pyStrip (collapseWsAux false (stripBr s.data))⟩

/-- The sort key of src/app.py line 99: sort_values(by=[helpful_vote,
timestamp], ascending=[False, False]).  reviewLe a b says a may come no
later than b: a has strictly more helpful votes, or equally many and a
timestamp at least as large. -/
def reviewLe (a b : Review) : Bool :=
  decide (b.helpful_vote < a.helpful_vote ∨
    (a.helpful_vote = b.helpful_vote ∧ b.timestamp ≤ a.timestamp))

theorem reviewLe_trans (a b c : Review) :
    reviewLe a b = true → reviewLe b c = true → reviewLe a c = true := by
  simp only [reviewLe, decide_eq_true_eq]
  omega

theorem reviewLe_total (a b : Review) : (reviewLe a b || reviewLe b a) = true := by
  simp only [reviewLe, Bool.or_eq_true, decide_eq_true_eq]
  omega

/-- src/app.py line 99: the Review Selector.  target_reviews =
product_reviews sorted by (helpful_vote desc, timestamp desc), then
head(MAX_REVIEWS_TO_ANALYZE). -/
def select_reviews (rs : List Review) : List Review :=
  (rs.mergeSort reviewLe).take MAX_REVIEWS_TO_ANALYZE

/-- df[df.parent_asin == asin] of src/app.py line 93. -/
def reviewsFor (store : List Review) (asin : String) : List Review :=
  store.filter (fun r => r.parent_asin == asin)

/-- The iteration step of Python max with a key selecting the second
component: the current best is replaced only when the candidate key is
strictly greater, so the first element attaining the maximum wins. -/
def pyMaxStep {β : Type} [LT β] [DecidableRel (fun a b : β => a < b)]
    (b p : String × β) : String × β :=
  if b.2 < p.2 then p else b

/-- Python max(iterable, key=second component) over a list of pairs; none
models the ValueError raised on an empty sequence. -/
def pyMaxSnd {β : Type} [LT β] [DecidableRel (fun a b : β => a < b)] :
    List (String × β) → Option (String × β)
  | [] => none
  | x :: xs => some (xs.foldl pyMaxStep x)

/-- src/app.py line 111: best_topic, best_score = max(zip(labels, scores),
key=score). -/
def best_topic_score (res : ClassifierResult) : Option (String × ℚ) :=
  pyMaxSnd (res.labels.zip res.scores)

/-- Python max(d, key=d.get) on a dict with at least the entry (k, v) and
further entries rest, in iteration (= insertion) order: the first key
attaining the maximal value. -/
def pyMaxKeyNE (k : String) (v : Nat) (rest : List (String × Nat)) : String :=
  (rest.foldl pyMaxStep (k, v)).1

/-- Python max(d, key=d.get) on an arbitrary dict; none models the
ValueError raised on an empty dict. -/
def pyMaxKey : List (String × Nat) → Option String
  | [] => none
  | x :: xs => some (pyMaxKeyNE x.1 x.2 xs)

/-- src/app.py line 120: topic_counts[best_topic] =
topic_counts.get(best_topic, 0) + 1.  An existing key is updated in place,
a new key is appended, as for a Python dict. -/
def bump_topic : TopicCounts → String → TopicCounts
  | [], k => [(k, 1)]
  | (k2, v) :: rest, k =>
    if k2 == k then (k2, v + 1) :: rest else (k2, v) :: bump_topic rest k

/-- src/app.py lines 122-124: the sentiment bucket update, keyed only on
the rating. -/
def bump_sentiment (counts : SentimentCounts) (rating : Int) : SentimentCounts :=
  if 4 ≤ rating then { counts with positive := counts.positive + 1 }
  else if rating ≤ 2 then { counts with negative := counts.negative + 1 }
  else { counts with neutral := counts.neutral + 1 }

/-- Python dict access topic_counts[top_topic]; only used at keys that are
present (a missing key would raise KeyError, which cannot happen where the
source uses it since top_topic is returned by max over the same dict). -/
def lookupCount (tc : TopicCounts) (k : String) : Nat :=
  match tc.find? (fun p => p.1 == k) with
  | some p => p.2
  | none => 0

/-- Round to the nearest integer, ties to even: the rounding performed both
by Python round() and by the :.0f float format specifier. -/
def roundHalfEven (q : ℚ) : ℤ :=
  let f : ℤ := ⌊q⌋
  if q - f < 1 / 2 then f
  else if (1 : ℚ) / 2 < q - f then f + 1
  else if f % 2 = 0 then f else f + 1

/-- Python f-string formatting with :.0f, for the nonnegative percentages
the source feeds it. -/
def formatF0 (q : ℚ) : String := toString (roundHalfEven q)

/-- src/app.py lines 65-89: generate_smart_summary.  none models the two
exceptions the Python body can raise: ValueError from max on an empty
topic_counts dict, and ZeroDivisionError when total_analyzed is zero. -/
def generate_smart_summary (topic_counts : TopicCounts)
    (sentiment_counts : SentimentCounts) (total_analyzed : Nat) : Option String :=
  match pyMaxKey topic_counts with
  | none => none
  | some top_topic =>
    if total_analyzed = 0 then none
    else
      let top_topic_pct : ℚ :=
        ((lookupCount topic_counts top_topic : ℚ) / (total_analyzed : ℚ)) * 100
      let top_sentiment : String :=
        pyMaxKeyNE "Positive" sentiment_counts.positive
          [("Negative", sentiment_counts.negative), ("Neutral", sentiment_counts.neutral)]
      some ("Based on an analysis of " ++ toString total_analyzed ++
        " reviews, the customer sentiment is predominantly **" ++ top_sentiment ++
        "**. " ++ "The primary driver of conversation is **" ++ top_topic ++
        "**, which appears in **" ++ formatF0 top_topic_pct ++
        "%** of the feedback. " ++
        (if top_sentiment == "Negative" then
          "This suggests users are facing critical issues in this specific area."
        else if top_sentiment == "Positive" then
          "This indicates high user satisfaction regarding this feature."
        else "Opinions on this product appear to be mixed."))

/-- src/app.py lines 109-124: the per-review loop of the Aggregator.  One
pair per analyzed review: the selected review together with the
classifier result of the same index (the source walks both by the shared
index i).  none models the ValueError from max over an empty zip of labels
and scores. -/
def aggregate :
    List (Review × ClassifierResult) →
    List ReviewDetail × TopicCounts × SentimentCounts →
    Option (List ReviewDetail × TopicCounts × SentimentCounts)
  | [], acc => some acc
  | (r, res) :: rest, (details, tcounts, scounts) =>
    match best_topic_score res with
    | none => none
    | some (bt, bs) =>
      aggregate rest
        (details ++ [{ text := clean_text r.text, rating := r.rating,
                       topic := bt, topic_score := bs }],
         bump_topic tcounts bt,
         bump_sentiment scounts r.rating)

/-- src/app.py lines 92-143: the body of cached_inference (the un-memoised
pipeline).  The classifier is passed in as the fallible batch call of
src/app.py line 107.  First component: ok none is the NotFound return of
line 94, ok (some a) the dict built on lines 132-143, and error an
exception escaping the body (classifier failure, or one of the ValueError
and ZeroDivisionError cases modelled above).  Second component: how many
times the classifier was invoked during this run (it is called exactly
once, on line 107, as soon as the product has any reviews). -/
def cached_inference_body
    (classify : List String → Except Unit (List ClassifierResult))
    (store : List Review) (asin : String) :
    Except Unit (Option ReviewAnalysis) × Nat :=
  match reviewsFor store asin with
  | [] => (Except.ok none, 0)
  | meta :: restRows =>
    let product_reviews := meta :: restRows
    let target_reviews := select_reviews product_reviews
    let raw_texts := target_reviews.map (fun r => clean_text r.text)
    match classify raw_texts with
    | Except.error e => (Except.error e, 1)
    | Except.ok results =>
      match aggregate (target_reviews.zip results) ([], [], ⟨0, 0, 0⟩) with
      | none => (Except.error (), 1)
      | some (processed_reviews, topic_counts, sentiment_counts) =>
        let total := processed_reviews.length
        match generate_smart_summary topic_counts sentiment_counts total with
        | none => (Except.error (), 1)
        | some ai_generated_text =>
          let topic_percentages :=
            topic_counts.map (fun p => (p.1, (p.2 : ℚ) / (total : ℚ)))
          (Except.ok (some {
            total_reviews_local := product_reviews.length
            analyzed_count := total
            product_title := meta.product_title
            product_image := meta.product_image
            average_rating :=
              if meta.average_rating == 0 then 0 else meta.average_rating
            rating_number :=
              if meta.rating_number == 0 then 0 else meta.rating_number
            top_topics := topic_percentages
            sentiment_breakdown := sentimentToDict sentiment_counts
            reviews := processed_reviews
            ai_summary := ai_generated_text }), 1)

/-- An infallible classifier adapter wrapped into the fallible interface. -/
def okClassifier (f : List String → List ClassifierResult) :
    List String → Except Unit (List ClassifierResult) :=
  fun ts => Except.ok (f ts)

/-- src/app.py line 91: lru_cache(maxsize=50). -/
def MAXSIZE : Nat := 50

/-- The state of the lru_cache around cached_inference: entries most
recently used first. -/
abbrev CacheState := List (String × Option ReviewAnalysis)

/-- Cache lookup by key. -/
def cacheLookup (st : CacheState) (k : String) : Option (Option ReviewAnalysis) :=
  (st.find? (fun p => p.1 == k)).map (fun p => p.2)

/-- On a hit, lru_cache moves the entry to the most recently used slot. -/
def cacheTouch (st : CacheState) (k : String) : CacheState :=
  match st.find? (fun p => p.1 == k) with
  | none => st
  | some p => p :: st.eraseP (fun q => q.1 == k)

/-- One call to the memoised cached_inference, following functools
lru_cache: on a hit return the stored value (also when that value is None)
and touch the entry; on a miss run the body; a raised exception is
propagated and nothing is stored; a returned value (None included) is
stored, evicting the least recently used entry beyond maxsize entries.
Result: (returned value or exception, cache afterwards, (number of body
executions, number of classifier invocations)). -/
def cached_inference_call
    (classify : List String → Except Unit (List ClassifierResult))
    (store : List Review) (st : CacheState) (asin : String) :
    Except Unit (Option ReviewAnalysis) × CacheState × (Nat × Nat) :=
  match cacheLookup st asin with
  | some v => (Except.ok v, cacheTouch st asin, (0, 0))
  | none =>
    match cached_inference_body classify store asin with
    | (Except.error e, n) => (Except.error e, st, (1, n))
    | (Except.ok v, n) => (Except.ok v, ((asin, v) :: st).take MAXSIZE, (1, n))

/-- Sum of the values of a string-keyed counts dict. -/
def sumValues (tc : List (String × Nat)) : Nat := (tc.map Prod.snd).sum

/-- Total of the three sentiment buckets. -/
def sentTotal (s : SentimentCounts) : Nat := s.positive + s.negative + s.neutral

theorem pyMaxFold_mem {β : Type} [LT β] [DecidableRel (fun a b : β => a < b)] :
    ∀ (xs : List (String × β)) (b : String × β), xs.foldl pyMaxStep b ∈ b :: xs := by
  intro xs
  induction xs with
  | nil => intro b; simp
  | cons p rest ih =>
    intro b
    simp only [List.foldl]
    rcases List.mem_cons.mp (ih (pyMaxStep b p)) with h2 | h2
    · rw [h2]
      unfold pyMaxStep
      by_cases h : b.2 < p.2 <;> simp [h]
    · exact List.mem_cons_of_mem _ (List.mem_cons_of_mem _ h2)

theorem pyMaxFold_start_le {β : Type} [LinearOrder β] :
    ∀ (xs : List (String × β)) (b : String × β), b.2 ≤ (xs.foldl pyMaxStep b).2 := by
  intro xs
  induction xs with
  | nil => intro b; simp
  | cons p rest ih =>
    intro b
    simp only [List.foldl]
    refine le_trans ?_ (ih (pyMaxStep b p))
    unfold pyMaxStep
    by_cases h : b.2 < p.2
    · simp only [h, if_true]
      exact le_of_lt h
    · simp [h]

/-- The Python max fold returns the first element attaining the maximum:
the input splits into a strictly smaller prefix, the winner, and a suffix
of elements no larger. -/
theorem pyMaxFold_split {β : Type} [LinearOrder β] :
    ∀ (xs : List (String × β)) (b : String × β),
      ∃ l₁ l₂, b :: xs = l₁ ++ (xs.foldl pyMaxStep b) :: l₂ ∧
        (∀ p ∈ l₁, p.2 < (xs.foldl pyMaxStep b).2) ∧
        (∀ p ∈ l₂, p.2 ≤ (xs.foldl pyMaxStep b).2) := by
  intro xs
  induction xs with
  | nil => intro b; exact ⟨[], [], by simp, by simp, by simp⟩
  | cons p rest ih =>
    intro b
    simp only [List.foldl]
    by_cases h : b.2 < p.2
    · have hs : pyMaxStep b p = p := by simp [pyMaxStep, h]
      rw [hs]
      obtain ⟨l₁, l₂, heq, h₁, h₂⟩ := ih p
      refine ⟨b :: l₁, l₂, ?_, ?_, h₂⟩
      · rw [List.cons_append, ← heq]
      · intro q hq
        rcases List.mem_cons.mp hq with rfl | hq2
        · exact lt_of_lt_of_le h (pyMaxFold_start_le rest p)
        · exact h₁ q hq2
    · have hs : pyMaxStep b p = b := by simp [pyMaxStep, h]
      rw [hs]
      obtain ⟨l₁, l₂, heq, h₁, h₂⟩ := ih b
      cases l₁ with
      | nil =>
        simp only [List.nil_append] at heq
        obtain ⟨hm, hl⟩ := List.cons_eq_cons.mp heq
        refine ⟨[], p :: l₂, ?_, by simp, ?_⟩
        · simp only [List.nil_append]
          rw [← hm, ← hl]
        · intro q hq
          rcases List.mem_cons.mp hq with rfl | hq2
          · rw [← hm]; exact le_of_not_lt h
          · exact h₂ q hq2
      | cons x l₁t =>
        rw [List.cons_append] at heq
        obtain ⟨hx, hrest⟩ := List.cons_eq_cons.mp heq
        refine ⟨b :: p :: l₁t, l₂, ?_, ?_, h₂⟩
        · simp only [List.cons_append]
          rw [← hrest]
        · intro q hq
          have hbm : b.2 < (rest.foldl pyMaxStep b).2 := by
            apply h₁
            rw [← hx]
            exact List.mem_cons_self _ _
          rcases List.mem_cons.mp hq with rfl | hq2
          · exact hbm
          · rcases List.mem_cons.mp hq2 with rfl | hq3
            · exact lt_of_le_of_lt (le_of_not_lt h) hbm
            · exact h₁ q (List.mem_cons_of_mem _ hq3)

/-- The best topic of a review is one of the labels the classifier returned
for it. -/
theorem best_topic_score_mem (res : ClassifierResult) (bt : String) (bs : ℚ)
    (h : best_topic_score res = some (bt, bs)) : bt ∈ res.labels := by
  unfold best_topic_score pyMaxSnd at h
  cases hz : res.labels.zip res.scores with
  | nil => rw [hz] at h; simp at h
  | cons x xs =>
    rw [hz] at h
    have hm := pyMaxFold_mem xs x
    rw [← hz] at hm
    simp only [Option.some.injEq] at h
    rw [h] at hm
    exact (List.of_mem_zip hm).1

theorem zip_ne_nil {α β : Type} {l₁ : List α} {l₂ : List β}
    (h₁ : l₁ ≠ []) (h₂ : l₂ ≠ []) : l₁.zip l₂ ≠ [] := by
  cases l₁ with
  | nil => exact absurd rfl h₁
  | cons a t =>
    cases l₂ with
    | nil => exact absurd rfl h₂
    | cons b t2 => simp [List.zip]

theorem sumValues_bump_topic (tc : TopicCounts) (k : String) :
    sumValues (bump_topic tc k) = sumValues tc + 1 := by
  induction tc with
  | nil => simp [bump_topic, sumValues]
  | cons p rest ih =>
    obtain ⟨k2, v⟩ := p
    simp only [bump_topic]
    by_cases h : (k2 == k) = true
    · rw [if_pos h]
      simp only [sumValues, List.map_cons, List.sum_cons]
      omega
    · rw [if_neg h]
      simp only [sumValues, List.map_cons, List.sum_cons]
      simp only [sumValues] at ih
      omega

theorem mem_keys_bump_topic (tc : TopicCounts) (k x : String) :
    x ∈ (bump_topic tc k).map Prod.fst ↔ x ∈ tc.map Prod.fst ∨ x = k := by
  induction tc with
  | nil => simp [bump_topic]
  | cons p rest ih =>
    obtain ⟨k2, v⟩ := p
    simp only [bump_topic]
    by_cases h : (k2 == k) = true
    · have hk : k2 = k := by simpa using h
      subst hk
      rw [if_pos h]
      simp only [List.map_cons, List.mem_cons]
      tauto
    · rw [if_neg h]
      simp only [List.map_cons, List.mem_cons, ih]
      tauto

theorem bump_topic_pos : ∀ (tc : TopicCounts) (k : String),
    (∀ kv ∈ tc, 0 < kv.2) → ∀ kv ∈ bump_topic tc k, 0 < kv.2 := by
  intro tc
  induction tc with
  | nil =>
    intro k _ kv hkv
    simp [bump_topic] at hkv
    simp [hkv]
  | cons p rest ih =>
    intro k h kv hkv
    obtain ⟨k2, v⟩ := p
    simp only [bump_topic] at hkv
    by_cases hb : (k2 == k) = true
    · rw [if_pos hb] at hkv
      rcases List.mem_cons.mp hkv with rfl | hkv
      · simp
      · exact h kv (List.mem_cons_of_mem _ hkv)
    · rw [if_neg hb] at hkv
      rcases List.mem_cons.mp hkv with rfl | hkv
      · exact h (k2, v) (List.mem_cons_self _ _)
      · exact ih k (fun q hq => h q (List.mem_cons_of_mem _ hq)) kv hkv

theorem value_le_sumValues (tc : TopicCounts) : ∀ kv ∈ tc, kv.2 ≤ sumValues tc := by
  induction tc with
  | nil => simp
  | cons p rest ih =>
    intro kv hkv
    rcases List.mem_cons.mp hkv with rfl | hkv
    · simp [sumValues]
    · have := ih kv hkv
      simp only [sumValues, List.map_cons, List.sum_cons]
      simp only [sumValues] at this
      omega

theorem sentTotal_bump (sc : SentimentCounts) (r : Int) :
    sentTotal (bump_sentiment sc r) = sentTotal sc + 1 := by
  unfold bump_sentiment sentTotal
  split <;> try split
  all_goals simp <;> omega

/-- The sentiment bucket fold, spelled out per bucket: the loop counts the
ratings meeting each threshold. -/
theorem foldl_bump_sentiment_counts (rs : List Int) (sc : SentimentCounts) :
    rs.foldl bump_sentiment sc =
      ⟨sc.positive + rs.countP (fun r => decide (4 ≤ r)),
       sc.negative + rs.countP (fun r => decide (¬ 4 ≤ r ∧ r ≤ 2)),
       sc.neutral + rs.countP (fun r => decide (¬ 4 ≤ r ∧ ¬ r ≤ 2))⟩ := by
  induction rs generalizing sc with
  | nil => simp
  | cons r rest ih =>
    simp only [List.foldl, List.countP_cons]
    rw [ih]
    unfold bump_sentiment
    by_cases h1 : 4 ≤ r
    · rw [if_pos h1]
      simp [h1, SentimentCounts.mk.injEq] <;> omega
    · by_cases h2 : r ≤ 2
      · rw [if_neg h1, if_pos h2]
        simp [h1, h2, SentimentCounts.mk.injEq] <;> omega
      · rw [if_neg h1, if_neg h2]
        simp [h1, h2, SentimentCounts.mk.injEq] <;> omega

theorem sentTotal_foldl_key {α : Type} (g : α → Int) :
    ∀ (rs : List α) (sc : SentimentCounts),
      sentTotal (rs.foldl (fun s a => bump_sentiment s (g a)) sc) = sentTotal sc + rs.length := by
  intro rs
  induction rs with
  | nil => intro sc; simp
  | cons r rest ih =>
    intro sc
    simp only [List.foldl, List.length_cons]
    rw [ih, sentTotal_bump]
    omega

/-- Everything the claims need about one run of the Aggregator loop, by
induction over the review/result pairs: the details list grows by one
record per pair, topic counts sum to the number of pairs processed, the
sentiment histogram is a fold over the ratings alone, every topic count is
positive, and the keys of the topic counts are exactly the best topics of
the produced details and always come from the classifier labels. -/
theorem aggregate_spec :
    ∀ (pairs : List (Review × ClassifierResult)) (ds : List ReviewDetail)
      (tc : TopicCounts) (sc : SentimentCounts)
      (out : List ReviewDetail × TopicCounts × SentimentCounts),
      aggregate pairs (ds, tc, sc) = some out →
      (∃ tail, out.1 = ds ++ tail) ∧
      out.1.length = ds.length + pairs.length ∧
      sumValues out.2.1 = sumValues tc + pairs.length ∧
      out.2.2 = pairs.foldl (fun s pr => bump_sentiment s pr.1.rating) sc ∧
      ((∀ kv ∈ tc, 0 < kv.2) → ∀ kv ∈ out.2.1, 0 < kv.2) ∧
      (∀ x, x ∈ tc.map Prod.fst → x ∈ out.2.1.map Prod.fst) ∧
      (∀ kv ∈ out.2.1, kv.1 ∈ tc.map Prod.fst ∨ ∃ d ∈ out.1, d.topic = kv.1) ∧
      (∀ d ∈ out.1, d ∈ ds ∨ d.topic ∈ out.2.1.map Prod.fst) ∧
      (∀ kv ∈ out.2.1, kv.1 ∈ tc.map Prod.fst ∨ ∃ pr ∈ pairs, kv.1 ∈ pr.2.labels) := by
  intro pairs
  induction pairs with
  | nil =>
    intro ds tc sc out h
    simp only [aggregate, Option.some.injEq] at h
    subst h
    refine ⟨⟨[], by simp⟩, by simp, by simp, by simp, fun hp => hp, fun x hx => hx,
      fun kv hkv => Or.inl (List.mem_map_of_mem Prod.fst hkv), fun d hd => Or.inl hd,
      fun kv hkv => Or.inl (List.mem_map_of_mem Prod.fst hkv)⟩
  | cons pr rest ih =>
    intro ds tc sc out h
    obtain ⟨r, res⟩ := pr
    simp only [aggregate] at h
    cases hbest : best_topic_score res with
    | none =>
      rw [hbest] at h
      exact absurd h (by simp)
    | some btbs =>
      obtain ⟨bt, bs⟩ := btbs
      rw [hbest] at h
      obtain ⟨⟨tail, htail⟩, hlen, hsum, hsent, hpos, hmono, hk2d, hd2k, hsub⟩ :=
        ih (ds ++ [{ text := clean_text r.text, rating := r.rating,
                     topic := bt, topic_score := bs }])
          (bump_topic tc bt) (bump_sentiment sc r.rating) out h
      have hd0mem : ∃ d ∈ out.1, d.topic = bt := by
        rw [htail]
        exact ⟨_, List.mem_append.mpr (Or.inl (List.mem_append.mpr
          (Or.inr (List.mem_cons_self _ _)))), rfl⟩
      refine ⟨?_, ?_, ?_, ?_, ?_, ?_, ?_, ?_, ?_⟩
      · exact ⟨{ text := clean_text r.text, rating := r.rating,
                 topic := bt, topic_score := bs } :: tail, by rw [htail]; simp⟩
      · rw [hlen]
        simp only [List.length_append, List.length_cons, List.length_nil]
        omega
      · rw [hsum, sumValues_bump_topic]
        simp only [List.length_cons]
        omega
      · simp only [List.foldl]
        exact hsent
      · intro hstart
        exact hpos (bump_topic_pos tc bt hstart)
      · intro x hx
        exact hmono x ((mem_keys_bump_topic tc bt x).mpr (Or.inl hx))
      · intro kv hkv
        rcases hk2d kv hkv with hk | hd
        · rcases (mem_keys_bump_topic tc bt kv.1).mp hk with hk2 | hk2
          · exact Or.inl hk2
          · refine Or.inr ?_
            rw [hk2]
            exact hd0mem
        · exact Or.inr hd
      · intro d hd
        rcases hd2k d hd with hin | hk
        · rcases List.mem_append.mp hin with hin2 | hin2
          · exact Or.inl hin2
          · have hdt : d.topic = bt := by
              simp only [List.mem_singleton] at hin2
              rw [hin2]
            refine Or.inr ?_
            rw [hdt]
            exact hmono bt ((mem_keys_bump_topic tc bt bt).mpr (Or.inr rfl))
        · exact Or.inr hk
      · intro kv hkv
        rcases hsub kv hkv with hk | ⟨pr2, hpr2, hl⟩
        · rcases (mem_keys_bump_topic tc bt kv.1).mp hk with hk2 | hk2
          · exact Or.inl hk2
          · refine Or.inr ⟨(r, res), List.mem_cons_self _ _, ?_⟩
            rw [hk2]
            exact best_topic_score_mem res bt bs hbest
        · exact Or.inr ⟨pr2, List.mem_cons_of_mem _ hpr2, hl⟩

/-- The Aggregator loop succeeds as soon as every classifier result offers
at least one label/score pair. -/
theorem aggregate_isSome :
    ∀ (pairs : List (Review × ClassifierResult))
      (acc : List ReviewDetail × TopicCounts × SentimentCounts),
      (∀ pr ∈ pairs, pr.2.labels.zip pr.2.scores ≠ []) →
      ∃ out, aggregate pairs acc = some out := by
  intro pairs
  induction pairs with
  | nil => intro acc _; exact ⟨acc, rfl⟩
  | cons pr rest ih =>
    intro acc hp
    obtain ⟨r, res⟩ := pr
    obtain ⟨ds, tc, sc⟩ := acc
    have hz := hp (r, res) (List.mem_cons_self _ _)
    simp only [aggregate]
    have hb : ∃ m, best_topic_score res = some m := by
      unfold best_topic_score pyMaxSnd
      cases hzz : res.labels.zip res.scores with
      | nil => exact absurd hzz hz
      | cons x xs => exact ⟨_, rfl⟩
    obtain ⟨⟨bt, bs⟩, hbt⟩ := hb
    rw [hbt]
    exact ih _ (fun q hq => hp q (List.mem_cons_of_mem _ hq))

/-- Stability of the selector sort: the reviews carrying any fixed sort key
appear in the sorted output in exactly their store order. -/
theorem mergeSort_reviewLe_stable (rs : List Review) (hv ts : Int) :
    (rs.mergeSort reviewLe).filter
        (fun r => r.helpful_vote == hv && r.timestamp == ts) =
      rs.filter (fun r => r.helpful_vote == hv && r.timestamp == ts) := by
  set p : Review → Bool := fun r => r.helpful_vote == hv && r.timestamp == ts with hp
  have hpair : (rs.filter p).Pairwise (fun a b => reviewLe a b = true) := by
    apply List.pairwise_of_forall_mem_list
    intro a ha b hb
    have ha2 := List.of_mem_filter ha
    have hb2 := List.of_mem_filter hb
    simp only [hp, Bool.and_eq_true, beq_iff_eq] at ha2 hb2
    simp only [reviewLe, decide_eq_true_eq]
    omega
  have hsub : (rs.filter p).Sublist (rs.mergeSort reviewLe) :=
    List.sublist_mergeSort reviewLe_trans reviewLe_total hpair (List.filter_sublist rs)
  have hff : (rs.filter p).filter p = rs.filter p :=
    List.filter_eq_self.mpr (fun a ha => List.of_mem_filter ha)
  have hsub2 : (rs.filter p).Sublist ((rs.mergeSort reviewLe).filter p) := by
    have h2 := List.Sublist.filter p hsub
    rwa [hff] at h2
  have hperm : ((rs.mergeSort reviewLe).filter p).Perm (rs.filter p) :=
    (List.mergeSort_perm rs reviewLe).filter p
  exact (hsub2.eq_of_length hperm.length_eq.symm).symm

theorem select_reviews_length (rs : List Review) :
    (select_reviews rs).length = min rs.length MAX_REVIEWS_TO_ANALYZE := by
  unfold select_reviews
  rw [List.length_take, (List.mergeSort_perm rs reviewLe).length_eq]
  exact Nat.min_comm _ _

theorem sum_map_div (tc : TopicCounts) (T : ℚ) :
    ((tc.map (fun p => (p.1, (p.2 : ℚ) / T))).map Prod.snd).sum = (sumValues tc : ℚ) / T := by
  induction tc with
  | nil => simp [sumValues]
  | cons p rest ih =>
    simp only [List.map_cons, List.sum_cons, ih, sumValues]
    push_cast
    rw [div_add_div_same]

theorem sumValues_sentimentToDict (s : SentimentCounts) :
    sumValues (sentimentToDict s) = sentTotal s := by
  simp only [sumValues, sentimentToDict, sentTotal, List.map_cons, List.map_nil,
    List.sum_cons, List.sum_nil]
  omega

/-- Everything the claims need about one successful run of the pipeline
body on a product that has reviews, for a classifier adapter that honours
its contract (one result per input text, each offering at least one
label/score pair). -/
theorem cached_inference_body_spec (f : List String → List ClassifierResult)
    (store : List Review) (asin : String)
    (hrev : reviewsFor store asin ≠ [])
    (hlen : ∀ ts, (f ts).length = ts.length)
    (hne : ∀ ts, ∀ res ∈ f ts, res.labels ≠ [] ∧ res.scores ≠ []) :
    ∃ a : ReviewAnalysis,
      cached_inference_body (okClassifier f) store asin = (Except.ok (some a), 1) ∧
      a.total_reviews_local = (reviewsFor store asin).length ∧
      a.analyzed_count = min (reviewsFor store asin).length MAX_REVIEWS_TO_ANALYZE ∧
      a.reviews.length = a.analyzed_count ∧
      0 < a.analyzed_count ∧
      a.sentiment_breakdown = sentimentToDict
        ((select_reviews (reviewsFor store asin)).foldl
          (fun sc r => bump_sentiment sc r.rating) ⟨0, 0, 0⟩) ∧
      sumValues a.sentiment_breakdown = a.analyzed_count ∧
      (a.top_topics.map Prod.snd).sum = 1 ∧
      (∀ kv ∈ a.top_topics, 0 < kv.2 ∧ kv.2 ≤ 1) ∧
      (∀ kv ∈ a.top_topics, ∃ d ∈ a.reviews, d.topic = kv.1) ∧
      (∀ d ∈ a.reviews, d.topic ∈ a.top_topics.map Prod.fst) ∧
      ((∀ ts, ∀ res ∈ f ts, ∀ x ∈ res.labels, x ∈ LABELS) →
        ∀ kv ∈ a.top_topics, kv.1 ∈ LABELS) := by
  cases hsplit : reviewsFor store asin with
  | nil => exact absurd hsplit hrev
  | cons meta restRows =>
    unfold cached_inference_body
    rw [hsplit]
    simp only [okClassifier]
    set trg := select_reviews (meta :: restRows) with htrg
    set raws := trg.map (fun r => clean_text r.text) with hraws
    set results := f raws with hresults
    have htrglen : trg.length = min (meta :: restRows).length MAX_REVIEWS_TO_ANALYZE := by
      rw [htrg]; exact select_reviews_length _
    have htrgne : trg ≠ [] := by
      refine List.length_pos.mp ?_
      rw [htrglen]
      simp only [List.length_cons, MAX_REVIEWS_TO_ANALYZE]
      omega
    have hreslen : results.length = trg.length := by
      rw [hresults, hlen, hraws, List.length_map]
    have hzips : ∀ pr ∈ trg.zip results, pr.2.labels.zip pr.2.scores ≠ [] := by
      intro pr hpr
      obtain ⟨r2, res2⟩ := pr
      have hm : res2 ∈ f raws := by
        rw [← hresults]
        exact (List.of_mem_zip hpr).2
      obtain ⟨h1, h2⟩ := hne raws res2 hm
      exact zip_ne_nil h1 h2
    obtain ⟨out, hout⟩ := aggregate_isSome (trg.zip results) ([], [], ⟨0, 0, 0⟩) hzips
    obtain ⟨processed, tcounts, scounts⟩ := out
    rw [hout]
    simp only []
    obtain ⟨⟨tail, htail⟩, hplen, hsum, hsent, hposf, hmono, hk2d, hd2k, hsub⟩ :=
      aggregate_spec (trg.zip results) [] [] ⟨0, 0, 0⟩ (processed, tcounts, scounts) hout
    simp only [] at htail hplen hsum hsent hposf hmono hk2d hd2k hsub
    have hpairslen : (trg.zip results).length = trg.length := by
      rw [List.length_zip, hreslen]
      exact Nat.min_self _
    have hplen2 : processed.length = trg.length := by
      simpa [hpairslen] using hplen
    have htotpos : 0 < processed.length := by
      rw [hplen2]
      exact List.length_pos.mpr htrgne
    have hsumtc : sumValues tcounts = processed.length := by
      rw [hsum, hpairslen, hplen2]
      simp [sumValues]
    have htcne : tcounts ≠ [] := by
      intro hnil
      rw [hnil] at hsumtc
      simp only [sumValues, List.map_nil, List.sum_nil] at hsumtc
      omega
    have hgen : ∃ s, generate_smart_summary tcounts scounts processed.length = some s := by
      unfold generate_smart_summary
      cases htc : tcounts with
      | nil => exact absurd htc htcne
      | cons x xs =>
        simp only [pyMaxKey]
        rw [if_neg (by omega : ¬ processed.length = 0)]
        exact ⟨_, rfl⟩
    obtain ⟨summ, hsumm⟩ := hgen
    rw [hsumm]
    have hposall : ∀ kv ∈ tcounts, 0 < kv.2 := hposf (by simp)
    have hTpos : (0 : ℚ) < (processed.length : ℚ) := by
      exact_mod_cast htotpos
    have hfold : (trg.zip results).foldl (fun s pr => bump_sentiment s pr.1.rating) ⟨0, 0, 0⟩ =
        trg.foldl (fun sc r => bump_sentiment sc r.rating) (⟨0, 0, 0⟩ : SentimentCounts) := by
      have hm : (trg.zip results).map Prod.fst = trg :=
        List.map_fst_zip _ _ (le_of_eq hreslen.symm)
      conv_rhs => rw [← hm]
      rw [List.foldl_map]
    have hkeys : (tcounts.map (fun p =>
        (p.1, (p.2 : ℚ) / (processed.length : ℚ)))).map Prod.fst = tcounts.map Prod.fst := by
      rw [List.map_map]
      rfl
    refine ⟨_, rfl, ?_, ?_, ?_, ?_, ?_, ?_, ?_, ?_, ?_, ?_, ?_⟩
    · show (meta :: restRows).length = (meta :: restRows).length
      rfl
    · show processed.length = min (meta :: restRows).length MAX_REVIEWS_TO_ANALYZE
      rw [hplen2, htrglen]
    · rfl
    · exact htotpos
    · show sentimentToDict scounts = sentimentToDict
        (trg.foldl (fun sc r => bump_sentiment sc r.rating) ⟨0, 0, 0⟩)
      rw [hsent, hfold]
    · show sumValues (sentimentToDict scounts) = processed.length
      rw [sumValues_sentimentToDict, hsent, hfold, sentTotal_foldl_key]
      simp only [sentTotal]
      omega
    · show ((tcounts.map (fun p => (p.1, (p.2 : ℚ) / (processed.length : ℚ)))).map
        Prod.snd).sum = 1
      rw [sum_map_div, hsumtc]
      exact div_self (ne_of_gt hTpos)
    · intro kv hkv
      obtain ⟨q, hq, hqe⟩ := List.mem_map.mp hkv
      have hqpos := hposall q hq
      have hqle : q.2 ≤ processed.length := by
        rw [← hsumtc]
        exact value_le_sumValues tcounts q hq
      constructor
      · rw [← hqe]
        exact div_pos (by exact_mod_cast hqpos) hTpos
      · rw [← hqe]
        rw [div_le_one hTpos]
        exact_mod_cast hqle
    · intro kv hkv
      obtain ⟨q, hq, hqe⟩ := List.mem_map.mp hkv
      rcases hk2d q hq with hk | ⟨d, hd, hdt⟩
      · simp at hk
      · exact ⟨d, hd, by rw [hdt, ← hqe]⟩
    · intro d hd
      rcases hd2k d hd with hin | hk
      · simp at hin
      · rw [hkeys]
        exact hk
    · intro hLab kv hkv
      obtain ⟨q, hq, hqe⟩ := List.mem_map.mp hkv
      rcases hsub q hq with hk | ⟨pr2, hpr2, hl⟩
      · simp at hk
      · obtain ⟨pa, pb⟩ := pr2
        have hm2 : pb ∈ f raws := by
          rw [← hresults]
          exact (List.of_mem_zip hpr2).2
        have := hLab raws pb hm2 q.1 hl
        rw [← hqe]
        exact this

theorem mem_cacheTouch (st : CacheState) (k : String) :
    ∀ p ∈ cacheTouch st k, p ∈ st := by
  unfold cacheTouch
  cases hf : st.find? (fun p => p.1 == k) with
  | none => intro p hp; exact hp
  | some q =>
    intro p hp
    rcases List.mem_cons.mp hp with rfl | hp2
    · exact List.mem_of_find?_eq_some hf
    · exact (List.eraseP_sublist st).subset hp2

theorem cacheLookup_touch (st : CacheState) (k : String) (v : Option ReviewAnalysis)
    (h : cacheLookup st k = some v) :
    cacheLookup (cacheTouch st k) k = some v := by
  unfold cacheLookup cacheTouch at *
  cases hf : st.find? (fun p => p.1 == k) with
  | none =>
    rw [hf] at h
    simp at h
  | some p =>
    rw [hf] at h
    simp only [Option.map_some'] at h
    rw [List.find?_cons_of_pos _ (List.find?_some hf)]
    simpa using h

theorem cacheLookup_insert (st : CacheState) (k : String) (v : Option ReviewAnalysis) :
    cacheLookup (((k, v) :: st).take MAXSIZE) k = some v := by
  unfold cacheLookup MAXSIZE
  rw [show (50 : Nat) = 49 + 1 from rfl, List.take_succ_cons]
  rw [List.find?_cons_of_pos _ (by simp)]
  rfl

/-- Every exit of the pipeline body invokes the classifier at most once. -/
theorem cached_inference_body_calls_le
    (g : List String → Except Unit (List ClassifierResult))
    (store : List Review) (asin : String) :
    (cached_inference_body g store asin).2 ≤ 1 := by
  unfold cached_inference_body
  cases reviewsFor store asin with
  | nil => simp
  | cons m r =>
    simp only []
    split
    · simp
    · split
      · simp
      · split
        · simp
        · simp

/-- Whenever the product has reviews, one run of the pipeline body invokes
the classifier exactly once, on the whole batch, whatever the outcome. -/
theorem cached_inference_body_calls_eq_one
    (g : List String → Except Unit (List ClassifierResult))
    (store : List Review) (asin : String) (h : reviewsFor store asin ≠ []) :
    (cached_inference_body g store asin).2 = 1 := by
  unfold cached_inference_body
  cases hr : reviewsFor store asin with
  | nil => exact absurd hr h
  | cons m r =>
    simp only []
    split
    · simp
    · split
      · simp
      · split
        · simp
        · simp

/-- Phases of one concurrent caller of the memoised cached_inference,
following the CPython implementation of functools.lru_cache: under the
cache lock the caller looks the key up; on a miss it leaves the lock and
runs the body; it then re-acquires the lock, inserts its freshly computed
value only if the key is still absent, and returns its own result.  A
raised exception is propagated and nothing is inserted.  lru_cache takes
no per-key lock around the body, so two callers can both be computing. -/
inductive ThreadPhase where
  | start : ThreadPhase
  | computing : ThreadPhase
  | done : Except Unit (Option ReviewAnalysis) → ThreadPhase

/-- Global state of N concurrent calls of cached_inference on the same
ASIN: the shared cache, the classifier invocation count, and each
thread's phase. -/
structure ConcState where
  cache : CacheState
  calls : Nat
  threads : List ThreadPhase

/-- One atomic step of thread i (scheduler's choice). -/
def threadStep (classify : List String → Except Unit (List ClassifierResult))
    (store : List Review) (asin : String) (s : ConcState) (i : Nat) : ConcState :=
  match s.threads.get? i with
  | none => s
  | some ThreadPhase.start =>
    match cacheLookup s.cache asin with
    | some v =>
      { s with threads := s.threads.set i (ThreadPhase.done (Except.ok v)),
               cache := cacheTouch s.cache asin }
    | none => { s with threads := s.threads.set i ThreadPhase.computing }
  | some ThreadPhase.computing =>
    match cached_inference_body classify store asin with
    | (Except.error e, n) =>
      { cache := s.cache, calls := s.calls + n,
        threads := s.threads.set i (ThreadPhase.done (Except.error e)) }
    | (Except.ok v, n) =>
      { cache := if (cacheLookup s.cache asin).isSome then s.cache
                 else ((asin, v) :: s.cache).take MAXSIZE,
        calls := s.calls + n,
        threads := s.threads.set i (ThreadPhase.done (Except.ok v)) }
  | some (ThreadPhase.done _) => s

/-- Run an interleaving: the schedule lists which thread moves at each
instant. -/
def runSchedule (classify : List String → Except Unit (List ClassifierResult))
    (store : List Review) (asin : String) (s0 : ConcState) (sched : List Nat) : ConcState :=
  sched.foldl (threadStep classify store asin) s0

/-- Threads still holding work (lru_cache bookkeeping: a thread calls the
body at most once, between its miss and its completion). -/
def notDone : ThreadPhase → Bool
  | ThreadPhase.done _ => false
  | _ => true

/-- Invariant of the concurrent runs: thread count is fixed, total
classifier invocations plus pending threads never exceed the thread count,
every cache entry holds the unique value the deterministic body computes
for this key, and every finished thread holds the body's result. -/
def ConcInv (classify : List String → Except Unit (List ClassifierResult))
    (store : List Review) (asin : String) (n : Nat) (s : ConcState) : Prop :=
  s.threads.length = n ∧
  s.calls + s.threads.countP notDone ≤ n ∧
  (∀ p ∈ s.cache, p.1 = asin ∧
    (cached_inference_body classify store asin).1 = Except.ok p.2) ∧
  (∀ t ∈ s.threads, ∀ r, t = ThreadPhase.done r →
    r = (cached_inference_body classify store asin).1)

theorem threadStep_inv (classify : List String → Except Unit (List ClassifierResult))
    (store : List Review) (asin : String) (n : Nat) (s : ConcState) (i : Nat)
    (h : ConcInv classify store asin n s) :
    ConcInv classify store asin n (threadStep classify store asin s i) := by
  obtain ⟨hlen, hcalls, hcache, hdone⟩ := h
  unfold threadStep
  cases hg : s.threads.get? i with
  | none => exact ⟨hlen, hcalls, hcache, hdone⟩
  | some t =>
    rw [List.get?_eq_getElem?] at hg
    obtain ⟨hi, hgi⟩ := List.getElem?_eq_some_iff.mp hg
    have hpos : 0 < s.threads.countP notDone → True := fun _ => trivial
    cases t with
    | start =>
      have hcpos : 0 < s.threads.countP notDone :=
        List.countP_pos.mpr ⟨_, List.getElem_mem hi, by rw [hgi]; rfl⟩
      cases hlk : cacheLookup s.cache asin with
      | some v =>
        have hbv : (cached_inference_body classify store asin).1 = Except.ok v := by
          unfold cacheLookup at hlk
          cases hf : s.cache.find? (fun p => p.1 == asin) with
          | none => rw [hf] at hlk; simp at hlk
          | some p =>
            rw [hf] at hlk
            simp only [Option.map_some', Option.some.injEq] at hlk
            obtain ⟨_, hb⟩ := hcache p (List.mem_of_find?_eq_some hf)
            rw [hb, hlk]
        refine ⟨?_, ?_, ?_, ?_⟩
        · simp [List.length_set, hlen]
        · simp only []
          rw [List.countP_set _ _ _ _ hi, hgi]
          simp [notDone]
          omega
        · intro p hp
          exact hcache p (mem_cacheTouch s.cache asin p hp)
        · intro t2 ht2 r hr
          rcases List.mem_or_eq_of_mem_set ht2 with hm | heq
          · exact hdone t2 hm r hr
          · rw [heq] at hr
            cases hr
            exact hbv.symm
      | none =>
        refine ⟨?_, ?_, ?_, ?_⟩
        · simp [List.length_set, hlen]
        · simp only []
          rw [List.countP_set _ _ _ _ hi, hgi]
          simp [notDone]
          omega
        · exact hcache
        · intro t2 ht2 r hr
          rcases List.mem_or_eq_of_mem_set ht2 with hm | heq
          · exact hdone t2 hm r hr
          · rw [heq] at hr
            cases hr
    | computing =>
      have hcpos : 0 < s.threads.countP notDone :=
        List.countP_pos.mpr ⟨_, List.getElem_mem hi, by rw [hgi]; rfl⟩
      cases hb : cached_inference_body classify store asin with
      | mk res ncalls =>
        have hn : ncalls ≤ 1 := by
          have hle := cached_inference_body_calls_le classify store asin
          rw [hb] at hle
          exact hle
        cases res with
        | error e =>
          refine ⟨?_, ?_, ?_, ?_⟩
          · simp [List.length_set, hlen]
          · simp only []
            rw [List.countP_set _ _ _ _ hi, hgi]
            simp [notDone]
            omega
          · exact hcache
          · intro t2 ht2 r hr
            rcases List.mem_or_eq_of_mem_set ht2 with hm | heq
            · exact hdone t2 hm r hr
            · rw [heq] at hr
              cases hr
              rw [hb]
        | ok v =>
          refine ⟨?_, ?_, ?_, ?_⟩
          · simp [List.length_set, hlen]
          · simp only []
            rw [List.countP_set _ _ _ _ hi, hgi]
            simp [notDone]
            omega
          · intro p hp
            simp only [] at hp
            by_cases hs : (cacheLookup s.cache asin).isSome
            · rw [if_pos hs] at hp
              exact hcache p hp
            · rw [if_neg hs] at hp
              have hp2 := List.take_subset _ _ hp
              rcases List.mem_cons.mp hp2 with rfl | hp3
              · exact ⟨rfl, by rw [hb]⟩
              · exact hcache p hp3
          · intro t2 ht2 r hr
            rcases List.mem_or_eq_of_mem_set ht2 with hm | heq
            · exact hdone t2 hm r hr
            · rw [heq] at hr
              cases hr
              rw [hb]
    | done r0 => exact ⟨hlen, hcalls, hcache, hdone⟩

theorem runSchedule_inv (classify : List String → Except Unit (List ClassifierResult))
    (store : List Review) (asin : String) (n : Nat) :
    ∀ (sched : List Nat) (s : ConcState), ConcInv classify store asin n s →
      ConcInv classify store asin n (runSchedule classify store asin s sched) := by
  intro sched
  induction sched with
  | nil => intro s h; exact h
  | cons i rest ih =>
    intro s h
    exact ih _ (threadStep_inv classify store asin n s i h)

/-- C4: for every product with reviews the Review Selector returns the
first min(n, 50) elements of a stable sort of its reviews by
(helpful_vote desc, timestamp desc): the sorted list is a permutation,
ordered under the key, and key-equal reviews keep their store order.
Under the classifier adapter contract the resulting analyzed_count equals
min(total_reviews_local, 50), and repeated selection on the same review
set yields an identical ordered subset. -/
theorem c4_selector_spec (f : List String → List ClassifierResult)
    (store : List Review) (asin : String) (rs : List Review)
    (hrev : reviewsFor store asin ≠ [])
    (hlen : ∀ ts, (f ts).length = ts.length)
    (hne : ∀ ts, ∀ res ∈ f ts, res.labels ≠ [] ∧ res.scores ≠ []) :
    (∃ s : List Review,
      s.Perm rs ∧
      s.Pairwise (fun a b => reviewLe a b = true) ∧
      (∀ hv ts2 : Int,
        s.filter (fun r => r.helpful_vote == hv && r.timestamp == ts2) =
          rs.filter (fun r => r.helpful_vote == hv && r.timestamp == ts2)) ∧
      select_reviews rs = s.take MAX_REVIEWS_TO_ANALYZE ∧
      (select_reviews rs).length = min rs.length MAX_REVIEWS_TO_ANALYZE) ∧
    (∀ rs2 : List Review, rs2 = rs → select_reviews rs2 = select_reviews rs) ∧
    (∃ a : ReviewAnalysis,
      cached_inference_body (okClassifier f) store asin = (Except.ok (some a), 1) ∧
      a.analyzed_count = min a.total_reviews_local MAX_REVIEWS_TO_ANALYZE) := by
  refine ⟨?_, ?_, ?_⟩
  · refine ⟨rs.mergeSort reviewLe, List.mergeSort_perm rs reviewLe,
      List.sorted_mergeSort reviewLe_trans reviewLe_total rs,
      fun hv ts2 => mergeSort_reviewLe_stable rs hv ts2, rfl,
      select_reviews_length rs⟩
  · intro rs2 h
    rw [h]
  · obtain ⟨a, hbody, htot, hcount, _⟩ :=
      cached_inference_body_spec f store asin hrev hlen hne
    exact ⟨a, hbody, by rw [hcount, htot]⟩

/-- C5: the sentiment bucket of every analyzed review is decided by its
rating alone (rating at least 4 counts as Positive, at most 2 as Negative,
otherwise Neutral) and never by the classifier output: any two
contract-honouring classifiers produce the same sentiment_breakdown, which
is exactly the per-threshold count of the selected ratings. -/
theorem c5_sentiment_rule (f g : List String → List ClassifierResult)
    (store : List Review) (asin : String)
    (hrev : reviewsFor store asin ≠ [])
    (hlenf : ∀ ts, (f ts).length = ts.length)
    (hnef : ∀ ts, ∀ res ∈ f ts, res.labels ≠ [] ∧ res.scores ≠ [])
    (hleng : ∀ ts, (g ts).length = ts.length)
    (hneg : ∀ ts, ∀ res ∈ g ts, res.labels ≠ [] ∧ res.scores ≠ []) :
    ∃ a b : ReviewAnalysis,
      cached_inference_body (okClassifier f) store asin = (Except.ok (some a), 1) ∧
      cached_inference_body (okClassifier g) store asin = (Except.ok (some b), 1) ∧
      a.sentiment_breakdown = b.sentiment_breakdown ∧
      a.sentiment_breakdown =
        [("Positive", (select_reviews (reviewsFor store asin)).countP
            (fun r => decide (4 ≤ r.rating))),
         ("Negative", (select_reviews (reviewsFor store asin)).countP
            (fun r => decide (¬ 4 ≤ r.rating ∧ r.rating ≤ 2))),
         ("Neutral", (select_reviews (reviewsFor store asin)).countP
            (fun r => decide (¬ 4 ≤ r.rating ∧ ¬ r.rating ≤ 2)))] := by
  obtain ⟨a, hbodya, _, _, _, _, hsenta, _⟩ :=
    cached_inference_body_spec f store asin hrev hlenf hnef
  obtain ⟨b, hbodyb, _, _, _, _, hsentb, _⟩ :=
    cached_inference_body_spec g store asin hrev hleng hneg
  refine ⟨a, b, hbodya, hbodyb, by rw [hsenta, hsentb], ?_⟩
  rw [hsenta]
  have hmapfold : (select_reviews (reviewsFor store asin)).foldl
      (fun sc r => bump_sentiment sc r.rating) (⟨0, 0, 0⟩ : SentimentCounts) =
      ((select_reviews (reviewsFor store asin)).map (fun r => r.rating)).foldl
        bump_sentiment ⟨0, 0, 0⟩ := by
    rw [List.foldl_map]
  rw [hmapfold, foldl_bump_sentiment_counts]
  simp only [sentimentToDict, List.countP_map, Nat.zero_add]
  rfl

/-- C6: every successful AnalysisResult produced under the classifier
adapter contract has sentiment_breakdown counts summing to analyzed_count,
which equals the number of annotated reviews; its top_topics fractions sum
to exactly 1 and each lies in the unit interval; and analyzed_count is
positive. -/
theorem c6_distribution_invariants (f : List String → List ClassifierResult)
    (store : List Review) (asin : String)
    (hrev : reviewsFor store asin ≠ [])
    (hlen : ∀ ts, (f ts).length = ts.length)
    (hne : ∀ ts, ∀ res ∈ f ts, res.labels ≠ [] ∧ res.scores ≠ []) :
    ∃ a : ReviewAnalysis,
      cached_inference_body (okClassifier f) store asin = (Except.ok (some a), 1) ∧
      0 < a.analyzed_count ∧
      sumValues a.sentiment_breakdown = a.analyzed_count ∧
      a.analyzed_count = a.reviews.length ∧
      (a.top_topics.map Prod.snd).sum = 1 ∧
      (∀ kv ∈ a.top_topics, 0 ≤ kv.2 ∧ kv.2 ≤ 1) := by
  obtain ⟨a, hbody, _, _, hrl, hpos, _, hssum, htsum, hbounds, _⟩ :=
    cached_inference_body_spec f store asin hrev hlen hne
  refine ⟨a, hbody, hpos, hssum, hrl.symm, htsum, ?_⟩
  intro kv hkv
  obtain ⟨h1, h2⟩ := hbounds kv hkv
  exact ⟨le_of_lt h1, h2⟩

/-- C10: in every successful AnalysisResult, top_topics has a key exactly
for the labels that are the best topic of at least one analyzed review;
every key is one of the six fixed candidate labels (given the classifier
returns only candidate labels), every stored fraction is strictly
positive, and a label that occurs for no review is absent. -/
theorem c10_top_topics_keys (f : List String → List ClassifierResult)
    (store : List Review) (asin : String)
    (hrev : reviewsFor store asin ≠ [])
    (hlen : ∀ ts, (f ts).length = ts.length)
    (hne : ∀ ts, ∀ res ∈ f ts, res.labels ≠ [] ∧ res.scores ≠ [])
    (hsub : ∀ ts, ∀ res ∈ f ts, ∀ x ∈ res.labels, x ∈ LABELS) :
    ∃ a : ReviewAnalysis,
      cached_inference_body (okClassifier f) store asin = (Except.ok (some a), 1) ∧
      (∀ kv ∈ a.top_topics, kv.1 ∈ LABELS ∧ 0 < kv.2 ∧ ∃ d ∈ a.reviews, d.topic = kv.1) ∧
      (∀ d ∈ a.reviews, d.topic ∈ a.top_topics.map Prod.fst) := by
  obtain ⟨a, hbody, _, _, _, _, _, _, _, hbounds, hk2d, hd2k, hlab⟩ :=
    cached_inference_body_spec f store asin hrev hlen hne
  refine ⟨a, hbody, ?_, hd2k⟩
  intro kv hkv
  exact ⟨hlab hsub kv hkv, (hbounds kv hkv).1, hk2d kv hkv⟩

/-- C2: two sequential calls of the memoised cached_inference on an ASIN
with reviews (with a contract-honouring classifier) return the identical
AnalysisResult, and the second call neither runs the pipeline body nor
invokes the classifier: at most one full pipeline execution happens per
distinct key while the entry remains cached. -/
theorem c2_cache_idempotent (f : List String → List ClassifierResult)
    (store : List Review) (st : CacheState) (asin : String)
    (hrev : reviewsFor store asin ≠ [])
    (hlen : ∀ ts, (f ts).length = ts.length)
    (hne : ∀ ts, ∀ res ∈ f ts, res.labels ≠ [] ∧ res.scores ≠ []) :
    (cached_inference_call (okClassifier f) store
        (cached_inference_call (okClassifier f) store st asin).2.1 asin).1 =
      (cached_inference_call (okClassifier f) store st asin).1 ∧
    (cached_inference_call (okClassifier f) store
        (cached_inference_call (okClassifier f) store st asin).2.1 asin).2.2.1 = 0 ∧
    (cached_inference_call (okClassifier f) store
        (cached_inference_call (okClassifier f) store st asin).2.1 asin).2.2.2 = 0 := by
  cases hlk : cacheLookup st asin with
  | some v =>
    have h1 : cached_inference_call (okClassifier f) store st asin =
        (Except.ok v, cacheTouch st asin, (0, 0)) := by
      unfold cached_inference_call
      rw [hlk]
    rw [h1]
    have h2 : cached_inference_call (okClassifier f) store (cacheTouch st asin) asin =
        (Except.ok v, cacheTouch (cacheTouch st asin) asin, (0, 0)) := by
      unfold cached_inference_call
      rw [cacheLookup_touch st asin v hlk]
    simp only []
    rw [h2]
    exact ⟨rfl, rfl, rfl⟩
  | none =>
    obtain ⟨a, hbody, _⟩ := cached_inference_body_spec f store asin hrev hlen hne
    have h1 : cached_inference_call (okClassifier f) store st asin =
        (Except.ok (some a), ((asin, some a) :: st).take MAXSIZE, (1, 1)) := by
      unfold cached_inference_call
      rw [hlk, hbody]
    rw [h1]
    have h2 : cached_inference_call (okClassifier f) store
        (((asin, some a) :: st).take MAXSIZE) asin =
        (Except.ok (some a),
          cacheTouch (((asin, some a) :: st).take MAXSIZE) asin, (0, 0)) := by
      unfold cached_inference_call
      rw [cacheLookup_insert]
    simp only []
    rw [h2]
    exact ⟨rfl, rfl, rfl⟩

/-- C9: when the external classifier call raises, the whole computation
for that key fails: the caller receives the error, the cache is left
exactly as it was (no partial AnalysisResult is stored, the key stays
absent), and a subsequent call for the same ASIN re-attempts the full
pipeline from scratch (one body run, one classifier invocation). -/
theorem c9_classifier_error_atomic
    (g g2 : List String → Except Unit (List ClassifierResult))
    (store : List Review) (st : CacheState) (asin : String)
    (hrev : reviewsFor store asin ≠ [])
    (hlook : cacheLookup st asin = none)
    (hfail : ∀ ts, g ts = Except.error ()) :
    (cached_inference_call g store st asin).1 = Except.error () ∧
    (cached_inference_call g store st asin).2.1 = st ∧
    cacheLookup (cached_inference_call g store st asin).2.1 asin = none ∧
    (cached_inference_call g2 store
      (cached_inference_call g store st asin).2.1 asin).2.2 = (1, 1) := by
  have hbody : cached_inference_body g store asin = (Except.error (), 1) := by
    unfold cached_inference_body
    cases hr : reviewsFor store asin with
    | nil => exact absurd hr hrev
    | cons m rest =>
      simp only []
      rw [hfail]
  have h1 : cached_inference_call g store st asin = (Except.error (), st, (1, 1)) := by
    unfold cached_inference_call
    rw [hlook, hbody]
  rw [h1]
  refine ⟨rfl, rfl, hlook, ?_⟩
  simp only []
  unfold cached_inference_call
  rw [hlook]
  cases hb2 : cached_inference_body g2 store asin with
  | mk res2 n2 =>
    have hn2 : n2 = 1 := by
      have := cached_inference_body_calls_eq_one g2 store asin hrev
      rw [hb2] at this
      exact this
    cases res2 with
    | error e => simp [hn2]
    | ok v => simp [hn2]

/-- C1 (amended): analyze on an ASIN with no reviews returns the NotFound
value, but lru_cache DOES memoise the negative result: afterwards the
cache maps the key to None, and a further request for the same ASIN is
answered from the cache without re-running the pipeline (so the Review
Store is not re-queried until the entry is evicted). -/
theorem c1_negative_result_cached
    (g g2 : List String → Except Unit (List ClassifierResult))
    (store : List Review) (st : CacheState) (asin : String)
    (hrev : reviewsFor store asin = [])
    (hlook : cacheLookup st asin = none) :
    (cached_inference_call g store st asin).1 = Except.ok none ∧
    cacheLookup (cached_inference_call g store st asin).2.1 asin = some none ∧
    (cached_inference_call g2 store
        (cached_inference_call g store st asin).2.1 asin).1 = Except.ok none ∧
    (cached_inference_call g2 store
        (cached_inference_call g store st asin).2.1 asin).2.2 = (0, 0) := by
  have hbody : cached_inference_body g store asin = (Except.ok none, 0) := by
    unfold cached_inference_body
    rw [hrev]
  have h1 : cached_inference_call g store st asin =
      (Except.ok none, ((asin, none) :: st).take MAXSIZE, (1, 0)) := by
    unfold cached_inference_call
    rw [hlook, hbody]
  rw [h1]
  have h2 : cached_inference_call g2 store
      (((asin, none) :: st).take MAXSIZE) asin =
      (Except.ok none, cacheTouch (((asin, none) :: st).take MAXSIZE) asin, (0, 0)) := by
    unfold cached_inference_call
    rw [cacheLookup_insert]
  refine ⟨rfl, cacheLookup_insert st asin none, ?_, ?_⟩
  · show (cached_inference_call g2 store
      (((asin, none) :: st).take MAXSIZE) asin).1 = Except.ok none
    rw [h2]
  · show (cached_inference_call g2 store
      (((asin, none) :: st).take MAXSIZE) asin).2.2 = (0, 0)
    rw [h2]

/-- C3 (amended): lru_cache provides no single-flight guarantee, so N
concurrent first-time calls for the same uncached ASIN may each invoke the
classifier; what does hold is that the classifier is invoked at most N
times in total, and every caller that completes receives the identical
result of the deterministic pipeline body. -/
theorem c3_concurrent_calls_bounded
    (classify : List String → Except Unit (List ClassifierResult))
    (store : List Review) (asin : String) (n : Nat) (sched : List Nat) :
    (runSchedule classify store asin
        ⟨[], 0, List.replicate n ThreadPhase.start⟩ sched).calls ≤ n ∧
    ∀ i r, (runSchedule classify store asin
        ⟨[], 0, List.replicate n ThreadPhase.start⟩ sched).threads.get? i =
        some (ThreadPhase.done r) →
      r = (cached_inference_body classify store asin).1 := by
  have hinit : ConcInv classify store asin n
      ⟨[], 0, List.replicate n ThreadPhase.start⟩ := by
    refine ⟨List.length_replicate n _, ?_, by simp, ?_⟩
    · simp [List.countP_replicate, notDone]
    · intro t ht r hr
      rw [List.eq_of_mem_replicate ht] at hr
      cases hr
  obtain ⟨_, hcalls, _, hdone⟩ := runSchedule_inv classify store asin n sched _ hinit
  refine ⟨by omega, ?_⟩
  intro i r hget
  exact hdone _ (List.get?_mem hget) r rfl

/-- C7: src/app.py line 111 sets (best_topic, best_score) to the pair with
the maximum score among zip(labels, scores); Python max keeps the first
maximum, so when the classifier reports its labels in the fixed LABELS
ordering the tie is broken by first occurrence in that fixed ordering:
the zipped list splits into a prefix scoring strictly below the winner,
the winner, and a suffix scoring no higher. -/
theorem c7_best_topic_argmax (res : ClassifierResult)
    (hlab : res.labels = LABELS) (hslen : res.scores.length = LABELS.length) :
    ∃ (bt : String) (bs : ℚ) (l₁ l₂ : List (String × ℚ)),
      best_topic_score res = some (bt, bs) ∧
      LABELS.zip res.scores = l₁ ++ (bt, bs) :: l₂ ∧
      (∀ p ∈ l₁, p.2 < bs) ∧
      (∀ p ∈ l₂, p.2 ≤ bs) ∧
      (∀ p ∈ LABELS.zip res.scores, p.2 ≤ bs) ∧
      bt ∈ LABELS := by
  unfold best_topic_score
  rw [hlab]
  cases hz : LABELS.zip res.scores with
  | nil =>
    have hzl : (LABELS.zip res.scores).length = LABELS.length := by
      rw [List.length_zip, hslen]
      exact Nat.min_self _
    rw [hz] at hzl
    simp [LABELS] at hzl
  | cons x xs =>
    obtain ⟨l₁, l₂, heq, h₁, h₂⟩ := pyMaxFold_split xs x
    have hmem : (xs.foldl pyMaxStep x) ∈ LABELS.zip res.scores := by
      rw [hz]
      exact pyMaxFold_mem xs x
    have hall : ∀ p ∈ x :: xs, p.2 ≤ (xs.foldl pyMaxStep x).2 := by
      intro q hq
      rw [heq] at hq
      rcases List.mem_append.mp hq with hq1 | hq2
      · exact le_of_lt (h₁ q hq1)
      · rcases List.mem_cons.mp hq2 with rfl | hq3
        · exact le_refl _
        · exact h₂ q hq3
    refine ⟨(xs.foldl pyMaxStep x).1, (xs.foldl pyMaxStep x).2, l₁, l₂, ?_, heq, h₁, h₂, hall, ?_⟩
    · simp [pyMaxSnd]
    · exact (List.of_mem_zip hmem).1

/-- C8: generate_smart_summary is a pure deterministic function of
(topic_counts, sentiment_counts, analyzed_count); for nonempty
topic_counts and positive analyzed_count it emits the fixed
three-sentence template naming the argmax sentiment bucket, the argmax
topic with percentage round(100 * topic_counts[top_topic] /
analyzed_count) (ties to even, as Python round and :.0f format), and one
of three canned context sentences selected by the top sentiment.  Two
runs on equal inputs produce equal strings. -/
theorem c8_summary_template (tc : TopicCounts) (sc : SentimentCounts) (n : Nat)
    (htc : tc ≠ []) (hn : 0 < n) :
    ∃ top_topic top_sentiment : String,
      pyMaxKey tc = some top_topic ∧
      top_sentiment = pyMaxKeyNE "Positive" sc.positive
        [("Negative", sc.negative), ("Neutral", sc.neutral)] ∧
      (top_sentiment = "Positive" ∨ top_sentiment = "Negative" ∨
        top_sentiment = "Neutral") ∧
      generate_smart_summary tc sc n = some
        ("Based on an analysis of " ++ toString n ++
          " reviews, the customer sentiment is predominantly **" ++ top_sentiment ++
          "**. " ++ "The primary driver of conversation is **" ++ top_topic ++
          "**, which appears in **" ++
          toString (roundHalfEven (100 * (lookupCount tc top_topic : ℚ) / (n : ℚ))) ++
          "%** of the feedback. " ++
          (if top_sentiment == "Negative" then
            "This suggests users are facing critical issues in this specific area."
          else if top_sentiment == "Positive" then
            "This indicates high user satisfaction regarding this feature."
          else "Opinions on this product appear to be mixed.")) ∧
      (∀ tc2 sc2 n2, tc2 = tc → sc2 = sc → n2 = n →
        generate_smart_summary tc2 sc2 n2 = generate_smart_summary tc sc n) := by
  cases htcc : tc with
  | nil => exact absurd htcc htc
  | cons x xs =>
    refine ⟨pyMaxKeyNE x.1 x.2 xs,
      pyMaxKeyNE "Positive" sc.positive
        [("Negative", sc.negative), ("Neutral", sc.neutral)], ?_, rfl, ?_, ?_, ?_⟩
    · simp [pyMaxKey]
    · have hmem := pyMaxFold_mem
        [("Negative", sc.negative), ("Neutral", sc.neutral)] ("Positive", sc.positive)
      unfold pyMaxKeyNE
      rcases List.mem_cons.mp hmem with heq | hmem2
      · left
        rw [heq]
      · rcases List.mem_cons.mp hmem2 with heq | hmem3
        · right; left
          rw [heq]
        · right; right
          rcases List.mem_cons.mp hmem3 with heq | hmem4
          · rw [heq]
          · simp at hmem4
    · unfold generate_smart_summary
      simp only [pyMaxKey]
      rw [if_neg (by omega : ¬ n = 0)]
      have harg : ((lookupCount (x :: xs) (pyMaxKeyNE x.1 x.2 xs) : ℚ) / (n : ℚ)) * 100 =
          100 * (lookupCount (x :: xs) (pyMaxKeyNE x.1 x.2 xs) : ℚ) / (n : ℚ) := by
        ring
      rw [formatF0, harg]
    · intro tc2 sc2 n2 h1 h2 h3
      rw [h1, h2, h3]

/-- One concrete review row for concrete runs of the pipeline. -/
def demoReview : Review :=
  { text := "Great smell, arrived fast", rating := 5, helpful_vote := 10,
    timestamp := 2, parent_asin := "B0DEMO", product_title := "Lavender Oil",
    product_image := none, average_rating := 4, rating_number := 12 }

/-- A one-product Review Store. -/
def demoStore : List Review := [demoReview]

/-- A classifier stub honouring the adapter contract: one fixed
labels/scores record per input text. -/
def stubClassifier (res : ClassifierResult) : List String → List ClassifierResult :=
  fun ts => ts.map (fun _ => res)

/-- A fixed classifier output over the six candidate labels. -/
def demoRes : ClassifierResult :=
  { labels := LABELS, scores := [3, 5, 1, 0, 2, 4] }

/-- A second, different fixed classifier output. -/
def demoRes2 : ClassifierResult :=
  { labels := LABELS, scores := [1, 2, 3, 4, 5, 6] }

/-- An adapter that answers with an empty batch (only used on paths that
never reach the classifier). -/
def emptyClassifier : List String → Except Unit (List ClassifierResult) :=
  fun _ => Except.ok []

/-- An adapter whose external call always fails. -/
def failClassifier : List String → Except Unit (List ClassifierResult) :=
  fun _ => Except.error ()

theorem stubClassifier_length (res : ClassifierResult) (ts : List String) :
    (stubClassifier res ts).length = ts.length := by
  simp [stubClassifier]

theorem stubClassifier_contract (res : ClassifierResult)
    (h1 : res.labels ≠ []) (h2 : res.scores ≠ []) :
    ∀ ts, ∀ r ∈ stubClassifier res ts, r.labels ≠ [] ∧ r.scores ≠ [] := by
  intro ts r hr
  obtain ⟨a, _, he⟩ := List.mem_map.mp hr
  rw [← he]
  exact ⟨h1, h2⟩

theorem stubClassifier_labels (res : ClassifierResult)
    (h : ∀ x ∈ res.labels, x ∈ LABELS) :
    ∀ ts, ∀ r ∈ stubClassifier res ts, ∀ x ∈ r.labels, x ∈ LABELS := by
  intro ts r hr
  obtain ⟨a, _, he⟩ := List.mem_map.mp hr
  rw [← he]
  exact h

/-- C1 counterexample: on a store with no rows for the requested ASIN the
call returns the NotFound value, but afterwards the Analysis Cache DOES
contain an entry for that key (lru_cache memoises the None return), which
falsifies the claim that the cache contains no entry for the key. -/
theorem c1_counterexample :
    (cached_inference_call emptyClassifier demoStore [] "UNKNOWN_ASIN").1 =
      Except.ok none ∧
    ¬ (cacheLookup (cached_inference_call emptyClassifier demoStore []
        "UNKNOWN_ASIN").2.1 "UNKNOWN_ASIN" = none) := by
  constructor
  · rfl
  · intro h
    have hx : cacheLookup (cached_inference_call emptyClassifier demoStore []
        "UNKNOWN_ASIN").2.1 "UNKNOWN_ASIN" = some none := rfl
    rw [hx] at h
    cases h

unseal List.merge List.mergeSort in
/-- C3 counterexample: with two concurrent first-time callers for the same
uncached ASIN, the interleaving in which both threads miss before either
computes makes the classifier adapter fire twice, falsifying the claim
that N concurrent first-time calls result in exactly one invocation. -/
theorem c3_counterexample :
    (runSchedule (okClassifier (stubClassifier demoRes)) demoStore "B0DEMO"
        ⟨[], 0, List.replicate 2 ThreadPhase.start⟩ [0, 1, 0, 1]).calls = 2 := by
  rfl

/-- Witness instantiating the amended C1 theorem: unknown ASIN, empty
cache, concrete store. -/
theorem c1_witness :
    reviewsFor demoStore "UNKNOWN_ASIN" = [] ∧
    cacheLookup ([] : CacheState) "UNKNOWN_ASIN" = none ∧
    ((cached_inference_call emptyClassifier demoStore [] "UNKNOWN_ASIN").1 =
        Except.ok none ∧
      cacheLookup (cached_inference_call emptyClassifier demoStore []
          "UNKNOWN_ASIN").2.1 "UNKNOWN_ASIN" = some none ∧
      (cached_inference_call emptyClassifier demoStore
          (cached_inference_call emptyClassifier demoStore []
            "UNKNOWN_ASIN").2.1 "UNKNOWN_ASIN").1 = Except.ok none ∧
      (cached_inference_call emptyClassifier demoStore
          (cached_inference_call emptyClassifier demoStore []
            "UNKNOWN_ASIN").2.1 "UNKNOWN_ASIN").2.2 = (0, 0)) :=
  ⟨rfl, rfl,
    c1_negative_result_cached emptyClassifier emptyClassifier demoStore []
      "UNKNOWN_ASIN" rfl rfl⟩

/-- Witness instantiating the C2 theorem: concrete store, stub
classifier, empty starting cache. -/
theorem c2_witness :
    reviewsFor demoStore "B0DEMO" ≠ [] ∧
    ((cached_inference_call (okClassifier (stubClassifier demoRes)) demoStore
        (cached_inference_call (okClassifier (stubClassifier demoRes)) demoStore
          [] "B0DEMO").2.1 "B0DEMO").1 =
      (cached_inference_call (okClassifier (stubClassifier demoRes)) demoStore
        [] "B0DEMO").1 ∧
     (cached_inference_call (okClassifier (stubClassifier demoRes)) demoStore
        (cached_inference_call (okClassifier (stubClassifier demoRes)) demoStore
          [] "B0DEMO").2.1 "B0DEMO").2.2.1 = 0 ∧
     (cached_inference_call (okClassifier (stubClassifier demoRes)) demoStore
        (cached_inference_call (okClassifier (stubClassifier demoRes)) demoStore
          [] "B0DEMO").2.1 "B0DEMO").2.2.2 = 0) :=
  ⟨by decide,
    c2_cache_idempotent (stubClassifier demoRes) demoStore [] "B0DEMO" (by decide)
      (stubClassifier_length demoRes)
      (stubClassifier_contract demoRes (by decide) (by decide))⟩

unseal List.merge List.mergeSort in
/-- Witness for the amended C3 theorem: two threads, the interleaving that
makes both compute; the bound and the agreement of the finished thread
with the pipeline result, at a concrete input. -/
theorem c3_witness :
    (runSchedule (okClassifier (stubClassifier demoRes)) demoStore "B0DEMO"
        ⟨[], 0, List.replicate 2 ThreadPhase.start⟩ [0, 1, 0, 1]).calls ≤ 2 ∧
    (runSchedule (okClassifier (stubClassifier demoRes)) demoStore "B0DEMO"
        ⟨[], 0, List.replicate 2 ThreadPhase.start⟩ [0, 1, 0, 1]).threads.get? 0 =
      some (ThreadPhase.done (cached_inference_body
        (okClassifier (stubClassifier demoRes)) demoStore "B0DEMO").1) :=
  ⟨(c3_concurrent_calls_bounded (okClassifier (stubClassifier demoRes)) demoStore
      "B0DEMO" 2 [0, 1, 0, 1]).1, rfl⟩

/-- Witness instantiating the C4 theorem at a concrete store and
classifier. -/
theorem c4_witness :
    reviewsFor demoStore "B0DEMO" ≠ [] ∧
    ((∃ s : List Review,
        s.Perm demoStore ∧
        s.Pairwise (fun a b => reviewLe a b = true) ∧
        (∀ hv ts2 : Int,
          s.filter (fun r => r.helpful_vote == hv && r.timestamp == ts2) =
            demoStore.filter (fun r => r.helpful_vote == hv && r.timestamp == ts2)) ∧
        select_reviews demoStore = s.take MAX_REVIEWS_TO_ANALYZE ∧
        (select_reviews demoStore).length = min demoStore.length MAX_REVIEWS_TO_ANALYZE) ∧
      (∀ rs2 : List Review, rs2 = demoStore →
        select_reviews rs2 = select_reviews demoStore) ∧
      (∃ a : ReviewAnalysis,
        cached_inference_body (okClassifier (stubClassifier demoRes)) demoStore
          "B0DEMO" = (Except.ok (some a), 1) ∧
        a.analyzed_count = min a.total_reviews_local MAX_REVIEWS_TO_ANALYZE)) :=
  ⟨by decide,
    c4_selector_spec (stubClassifier demoRes) demoStore "B0DEMO" demoStore (by decide)
      (stubClassifier_length demoRes)
      (stubClassifier_contract demoRes (by decide) (by decide))⟩

/-- Witness instantiating the C5 theorem with two different stub
classifiers over the same store. -/
theorem c5_witness :
    reviewsFor demoStore "B0DEMO" ≠ [] ∧
    (∃ a b : ReviewAnalysis,
      cached_inference_body (okClassifier (stubClassifier demoRes)) demoStore
        "B0DEMO" = (Except.ok (some a), 1) ∧
      cached_inference_body (okClassifier (stubClassifier demoRes2)) demoStore
        "B0DEMO" = (Except.ok (some b), 1) ∧
      a.sentiment_breakdown = b.sentiment_breakdown ∧
      a.sentiment_breakdown =
        [("Positive", (select_reviews (reviewsFor demoStore "B0DEMO")).countP
            (fun r => decide (4 ≤ r.rating))),
         ("Negative", (select_reviews (reviewsFor demoStore "B0DEMO")).countP
            (fun r => decide (¬ 4 ≤ r.rating ∧ r.rating ≤ 2))),
         ("Neutral", (select_reviews (reviewsFor demoStore "B0DEMO")).countP
            (fun r => decide (¬ 4 ≤ r.rating ∧ ¬ r.rating ≤ 2)))]) :=
  ⟨by decide,
    c5_sentiment_rule (stubClassifier demoRes) (stubClassifier demoRes2) demoStore
      "B0DEMO" (by decide)
      (stubClassifier_length demoRes)
      (stubClassifier_contract demoRes (by decide) (by decide))
      (stubClassifier_length demoRes2)
      (stubClassifier_contract demoRes2 (by decide) (by decide))⟩

/-- Witness instantiating the C6 theorem at a concrete store and
classifier. -/
theorem c6_witness :
    reviewsFor demoStore "B0DEMO" ≠ [] ∧
    (∃ a : ReviewAnalysis,
      cached_inference_body (okClassifier (stubClassifier demoRes)) demoStore
        "B0DEMO" = (Except.ok (some a), 1) ∧
      0 < a.analyzed_count ∧
      sumValues a.sentiment_breakdown = a.analyzed_count ∧
      a.analyzed_count = a.reviews.length ∧
      (a.top_topics.map Prod.snd).sum = 1 ∧
      (∀ kv ∈ a.top_topics, 0 ≤ kv.2 ∧ kv.2 ≤ 1)) :=
  ⟨by decide,
    c6_distribution_invariants (stubClassifier demoRes) demoStore "B0DEMO" (by decide)
      (stubClassifier_length demoRes)
      (stubClassifier_contract demoRes (by decide) (by decide))⟩

/-- Witness instantiating the C7 theorem at a concrete classifier
output. -/
theorem c7_witness :
    demoRes.labels = LABELS ∧
    demoRes.scores.length = LABELS.length ∧
    (∃ (bt : String) (bs : ℚ) (l₁ l₂ : List (String × ℚ)),
      best_topic_score demoRes = some (bt, bs) ∧
      LABELS.zip demoRes.scores = l₁ ++ (bt, bs) :: l₂ ∧
      (∀ p ∈ l₁, p.2 < bs) ∧
      (∀ p ∈ l₂, p.2 ≤ bs) ∧
      (∀ p ∈ LABELS.zip demoRes.scores, p.2 ≤ bs) ∧
      bt ∈ LABELS) :=
  ⟨rfl, rfl, c7_best_topic_argmax demoRes rfl rfl⟩

/-- Witness instantiating the C8 theorem at concrete aggregates. -/
theorem c8_witness :
    ([("Price & Value", 2), ("Service", 1)] : TopicCounts) ≠ [] ∧
    0 < 3 ∧
    (∃ top_topic top_sentiment : String,
      pyMaxKey [("Price & Value", 2), ("Service", 1)] = some top_topic ∧
      top_sentiment = pyMaxKeyNE "Positive" (SentimentCounts.mk 2 1 0).positive
        [("Negative", (SentimentCounts.mk 2 1 0).negative),
         ("Neutral", (SentimentCounts.mk 2 1 0).neutral)] ∧
      (top_sentiment = "Positive" ∨ top_sentiment = "Negative" ∨
        top_sentiment = "Neutral") ∧
      generate_smart_summary [("Price & Value", 2), ("Service", 1)]
          (SentimentCounts.mk 2 1 0) 3 = some
        ("Based on an analysis of " ++ toString 3 ++
          " reviews, the customer sentiment is predominantly **" ++ top_sentiment ++
          "**. " ++ "The primary driver of conversation is **" ++ top_topic ++
          "**, which appears in **" ++
          toString (roundHalfEven (100 *
            (lookupCount [("Price & Value", 2), ("Service", 1)] top_topic : ℚ) /
            ((3 : Nat) : ℚ))) ++
          "%** of the feedback. " ++
          (if top_sentiment == "Negative" then
            "This suggests users are facing critical issues in this specific area."
          else if top_sentiment == "Positive" then
            "This indicates high user satisfaction regarding this feature."
          else "Opinions on this product appear to be mixed.")) ∧
      (∀ tc2 sc2 n2, tc2 = [("Price & Value", 2), ("Service", 1)] →
        sc2 = SentimentCounts.mk 2 1 0 → n2 = 3 →
        generate_smart_summary tc2 sc2 n2 =
          generate_smart_summary [("Price & Value", 2), ("Service", 1)]
            (SentimentCounts.mk 2 1 0) 3)) :=
  ⟨by decide, by decide,
    c8_summary_template [("Price & Value", 2), ("Service", 1)]
      (SentimentCounts.mk 2 1 0) 3 (by decide) (by decide)⟩

/-- Witness instantiating the C9 theorem: a failing adapter on a product
with reviews, then a retry with a working adapter. -/
theorem c9_witness :
    reviewsFor demoStore "B0DEMO" ≠ [] ∧
    cacheLookup ([] : CacheState) "B0DEMO" = none ∧
    ((cached_inference_call failClassifier demoStore [] "B0DEMO").1 =
        Except.error () ∧
      (cached_inference_call failClassifier demoStore [] "B0DEMO").2.1 = [] ∧
      cacheLookup (cached_inference_call failClassifier demoStore []
          "B0DEMO").2.1 "B0DEMO" = none ∧
      (cached_inference_call (okClassifier (stubClassifier demoRes)) demoStore
          (cached_inference_call failClassifier demoStore [] "B0DEMO").2.1
          "B0DEMO").2.2 = (1, 1)) :=
  ⟨by decide, rfl,
    c9_classifier_error_atomic failClassifier (okClassifier (stubClassifier demoRes))
      demoStore [] "B0DEMO" (by decide) rfl (fun _ => rfl)⟩

/-- Witness instantiating the C10 theorem at a concrete store and
classifier. -/
theorem c10_witness :
    reviewsFor demoStore "B0DEMO" ≠ [] ∧
    (∃ a : ReviewAnalysis,
      cached_inference_body (okClassifier (stubClassifier demoRes)) demoStore
        "B0DEMO" = (Except.ok (some a), 1) ∧
      (∀ kv ∈ a.top_topics, kv.1 ∈ LABELS ∧ 0 < kv.2 ∧
        ∃ d ∈ a.reviews, d.topic = kv.1) ∧
      (∀ d ∈ a.reviews, d.topic ∈ a.top_topics.map Prod.fst)) :=
  ⟨by decide,
    c10_top_topics_keys (stubClassifier demoRes) demoStore "B0DEMO" (by decide)
      (stubClassifier_length demoRes)
      (stubClassifier_contract demoRes (by decide) (by decide))
      (stubClassifier_labels demoRes (by decide))⟩
